import Mathlib

/-!
# Verification of the `basepack` pack-storage core

A shallow embedding of `remotefilelog/basepack.py`: the fanout/index
parameters, the fanout-table construction of `mutablebasepack.writeindex`,
the version validation of `basepack.__init__`, the cascading
`basepackstore.getmissing`, and the temp-file / publish state machine of
`mutablebasepack` (`__init__`, `writeraw`, `close`, `__exit__`).

Conventions: a byte is a `Nat` (meaningful values `< 256`), a byte string
(a node / key, or file contents) is a `List Nat`, a filename is a `String`.
The filesystem visible through the opener is the list of existing file
names (`FS`). `hashlib.sha1` is external to the repository, so the running
hash is modelled by the accumulated byte stream (`shaBytes`) together with
an abstract digest function `hexdigest : List Nat → String` passed to
`close`; an `IO` error is an `Except.error`.
-/

/-- `VERSION = 0`: the single pack format version this implementation supports. -/
def VERSION : Nat := 0

/-- `PACKVERSIONSIZE = 1`: byte length of the data-file header. -/
def PACKVERSIONSIZE : Nat := 1

/-- `INDEXVERSIONSIZE = 2`: byte length of the index-file header. -/
def INDEXVERSIONSIZE : Nat := 2

/-- `FANOUTSTART = INDEXVERSIONSIZE`: offset of the fanout table in the index file. -/
def FANOUTSTART : Nat := INDEXVERSIONSIZE

/-- `EMPTYFANOUT = -1`: sentinel for a fanout entry not yet filled in
(never serialized). -/
def EMPTYFANOUT : Int := -1

/-- `SMALLFANOUTPREFIX = 1`: fanout addresses the first byte of a hash. -/
def SMALLFANOUTPREFIX : Nat := 1

/-- `LARGEFANOUTPREFIX = 2`: fanout addresses the first two bytes of a hash. -/
def LARGEFANOUTPREFIX : Nat := 2

/-- `SMALLFANOUTCUTOFF = 2**16 / 8`: entry count at which the writer switches
to the large fanout (Python 2 integer division). -/
def SMALLFANOUTCUTOFF : Nat := 2 ^ 16 / 8

/-- The `indexparams` object: `fanoutpfx` embeds the source field
`fanoutprefix` (the number of leading key bytes addressed by the fanout
table), `fanoutstruct` the struct format for one fanout key, `fanoutcount`
the number of table entries, `fanoutsize` its byte size, `indexstart` the
offset where sorted index entries begin. -/
structure IndexParams where
  fanoutpfx : Nat
  fanoutstruct : String
  fanoutcount : Nat
  fanoutsize : Nat
  indexstart : Nat
deriving DecidableEq

/-- `indexparams.__init__(prefixsize)`: accepts widths 1 and 2 and computes
`fanoutcount = 2**(prefixsize * 8)`, `fanoutsize = fanoutcount * 4`,
`indexstart = FANOUTSTART + fanoutsize`; any other width raises
`ValueError` (modelled as `Except.error`). -/
def indexparams (prefixsize : Nat) : Except String IndexParams :=
  if prefixsize = SMALLFANOUTPREFIX then
    .ok ⟨prefixsize, "!B", 2 ^ (prefixsize * 8), 2 ^ (prefixsize * 8) * 4,
         FANOUTSTART + 2 ^ (prefixsize * 8) * 4⟩
  else if prefixsize = LARGEFANOUTPREFIX then
    .ok ⟨prefixsize, "!H", 2 ^ (prefixsize * 8), 2 ^ (prefixsize * 8) * 4,
         FANOUTSTART + 2 ^ (prefixsize * 8) * 4⟩
  else
    .error ("invalid fanout prefix size: " ++ toString prefixsize)

/-- `writeindex`: `largefanout = len(self.entries) > SMALLFANOUTCUTOFF`; the
chosen fanout width for a pack with `entryCount` entries. -/
def writeindexFanoutpfx (entryCount : Nat) : Nat :=
  if entryCount > SMALLFANOUTCUTOFF then LARGEFANOUTPREFIX else SMALLFANOUTPREFIX

/-- `_writeheader`: the index config byte is `0b10000000` when the large
fanout was chosen and `0` otherwise. -/
def writeheaderConfig (fanoutpfx : Nat) : Nat :=
  if fanoutpfx = LARGEFANOUTPREFIX then 128 else 0

/-- `struct.unpack(params.fanoutstruct, node[:fanoutpfx])[0]`: the big-endian
unsigned integer formed by the first `p` bytes of `node` (`'!B'` for `p = 1`,
`'!H'` for `p = 2`). -/
def fanoutkey (p : Nat) (node : List Nat) : Nat :=
  (node.take p).foldl (fun acc b => acc * 256 + b) 0

/-- The first loop of `writeindex` over `sorted(self.entries.iterkeys())`:
each node gets `location = count * INDEXENTRYLENGTH`; if the node's fanout
bucket is still `EMPTYFANOUT` it is set to that location. `L` is the
subclass constant `INDEXENTRYLENGTH`. -/
def fillFanout (L p : Nat) : List (List Nat) → Nat → List Int → List Int
  | [], _, table => table
  | node :: rest, count, table =>
    let key := fanoutkey p node
    let table' := if table.getD key EMPTYFANOUT = EMPTYFANOUT
                  then table.set key ((count * L : Nat) : Int)
                  else table
    fillFanout L p rest (count + 1) table'

/-- The second loop of `writeindex`: `offset = offset if offset != EMPTYFANOUT
else last; last = offset`; each serialized entry (packed as `'!I'`) is the
bucket's own offset, or the nearest preceding non-empty bucket's offset, or
the initial `last = 0`. -/
def backfillFanout : List Int → Int → List Int
  | [], _ => []
  | x :: xs, last =>
    let offset := if x = EMPTYFANOUT then last else x
    offset :: backfillFanout xs offset

/-- The fanout table `writeindex` serializes for entry width `L`, fanout
width `p` and the sorted entry keys `sortedNodes`: a table of
`2 ^ (p * 8)` buckets initialized to `EMPTYFANOUT`, filled by the first
loop, then back-filled starting from `last = 0`. -/
def writeindexFanouttable (L p : Nat) (sortedNodes : List (List Nat)) : List Int :=
  backfillFanout
    (fillFanout L p sortedNodes 0 (List.replicate (2 ^ (p * 8)) EMPTYFANOUT)) 0

/-- Python 2 byte-string comparison: lexicographic, a proper initial segment
is smaller (`sorted(self.entries.iterkeys())` lists keys in this order). -/
def lexLe : List Nat → List Nat → Bool
  | [], _ => true
  | _ :: _, [] => false
  | a :: as, b :: bs => decide (a < b) || (a == b && lexLe as bs)

/-- `basepackstore.getmissing`: each pack is abstracted by its `getmissing`
function; the store folds the unresolved key set through the loaded packs
in order. -/
def basepackstore.getmissing {α : Type} (packs : List (List α → List α))
    (keys : List α) : List α :=
  packs.foldl (fun missing pack => pack missing) keys

/-- A concrete pack holding the keys `contents`: its `getmissing` reports
the input keys it does not contain (the behaviour the spec requires of
reader subclasses). -/
def packGetmissing {α : Type} [DecidableEq α] (contents : List α)
    (keys : List α) : List α :=
  keys.filter (fun k => decide (k ∉ contents))

/-- The version validation of `basepack.__init__`: unpack one byte from the
data file and compare with `VERSION`, then unpack two bytes (version,
config) from the index file and compare the version with `VERSION`; a
mismatch raises `RuntimeError` (modelled as `Except.error`), and a file
too short for the unpack raises `struct.error`. -/
def basepack.checkversions (dataBytes idxBytes : List Nat) : Except String Unit :=
  match dataBytes with
  | [] => .error "struct.error: unpack requires a string argument of length 1"
  | v :: _ =>
    if v ≠ VERSION then
      .error ("unsupported pack version " ++ toString v)
    else
      match idxBytes with
      | iv :: _ :: _ =>
        if iv ≠ VERSION then
          .error ("unsupported pack index version " ++ toString iv)
        else .ok ()
      | _ => .error "struct.error: unpack requires a string argument of length 2"

/-- The directory as seen through the writer's opener: the list of existing
file names. -/
structure FS where
  files : List String
deriving DecidableEq

/-- `opener.unlink`: removes the file, `OSError` if it does not exist. -/
def FS.unlink (fs : FS) (name : String) : Except String FS :=
  if name ∈ fs.files then
    .ok ⟨fs.files.filter (fun m => decide (m ≠ name))⟩
  else
    .error ("no such file: " ++ name)

/-- `opener.rename`: removes the source name (and any file already at the
destination name) and adds the destination name; `OSError` if the source
does not exist. -/
def FS.rename (fs : FS) (oldname newname : String) : Except String FS :=
  if oldname ∈ fs.files then
    .ok ⟨(fs.files.filter (fun m => decide (m ≠ oldname ∧ m ≠ newname))).concat newname⟩
  else
    .error ("no such file: " ++ oldname)

/-- The state of a `mutablebasepack` writer: the two temp file names, the
bytes written to the pack temp file, the bytes folded into the running
hash (`self.sha`), the entry keys recorded by the subclass
(`self.entries`), the two file-handle states, and `self._closed`. -/
structure WriterState where
  packpath : String
  idxpath : String
  packBytes : List Nat
  shaBytes : List Nat
  entries : List (List Nat)
  packfpOpen : Bool
  idxfpOpen : Bool
  closed : Bool
deriving DecidableEq

namespace mutablebasepack

/-- `mutablebasepack.writeraw(data)`: append `data` to the pack file and
fold it into the running hash. -/
def writeraw (w : WriterState) (data : List Nat) : WriterState :=
  { w with packBytes := w.packBytes ++ data, shaBytes := w.shaBytes ++ data }

/-- `mutablebasepack.__init__(opener)`: `mkstemp` creates two uniquely named
temp files (`... + suffix + '-tmp'`), both handles open, and the 1-byte
version header is written through `writeraw` (so it is also hashed).
`stem1, stem2` stand for the random stems `mkstemp` chooses. -/
def init (packsuffix idxsuffix stem1 stem2 : String) (fs : FS) :
    WriterState × FS :=
  let ppath := stem1 ++ packsuffix ++ "-tmp"
  let ipath := stem2 ++ idxsuffix ++ "-tmp"
  let w : WriterState := ⟨ppath, ipath, [], [], [], true, true, false⟩
  (writeraw w [VERSION], ⟨(fs.files.concat ppath).concat ipath⟩)

/-- A whole build: `__init__`, a `writeraw` per element of `datas`, and the
subclass recording the entry keys `es`. -/
def runWriter (packsuffix idxsuffix stem1 stem2 : String) (fs : FS)
    (datas : List (List Nat)) (es : List (List Nat)) : WriterState × FS :=
  let p := init packsuffix idxsuffix stem1 stem2 fs
  let w := datas.foldl writeraw p.1
  ({ w with entries := es }, p.2)

/-- `mutablebasepack.close(ledger=None)`: compute the hex digest of the
hashed bytes, close the pack handle (a no-op on an already closed Python
file), run `writeindex` — whose first write raises `ValueError` when the
index handle was already closed by a previous `close`, and which closes
the index handle; then: an empty pack unlinks both temp files and returns
`None`, otherwise both temp files are renamed to the digest stem with
their suffixes and the stem is returned. `_closed` is set in both
branches. -/
def close (hexdigest : List Nat → String) (packsuffix idxsuffix : String)
    (w : WriterState) (fs : FS) :
    Except String (WriterState × FS × Option String) :=
  let sha := hexdigest w.shaBytes
  let w1 := { w with packfpOpen := false }
  if w1.idxfpOpen then
    let w2 := { w1 with idxfpOpen := false }
    if w2.entries.length = 0 then
      match fs.unlink w2.packpath with
      | .error e => .error e
      | .ok fs1 =>
        match fs1.unlink w2.idxpath with
        | .error e => .error e
        | .ok fs2 => .ok ({ w2 with closed := true }, fs2, none)
    else
      match fs.rename w2.packpath (sha ++ packsuffix) with
      | .error e => .error e
      | .ok fs1 =>
        match fs1.rename w2.idxpath (sha ++ idxsuffix) with
        | .error e => .error e
        | .ok fs2 => .ok ({ w2 with closed := true }, fs2, some sha)
  else
    .error "I/O operation on closed file"

/-- The `except Exception: pass` cleanup of `__exit__`: unlink the pack temp
file, then the index temp file; the first failure ends the attempt and is
swallowed. -/
def cleanupBoth (w : WriterState) (fs : FS) : FS :=
  match fs.unlink w.packpath with
  | .error _ => fs
  | .ok fs1 =>
    match fs1.unlink w.idxpath with
    | .error _ => fs1
    | .ok fs2 => fs2

/-- `mutablebasepack.__exit__(exc_type, exc_value, traceback)`: on a clean
exit, `close` unless `_closed`; on an unclean exit, best-effort unlink of
both temp files with every cleanup failure swallowed (the original
exception keeps propagating, since `__exit__` returns `None`). -/
def exitWriter (hexdigest : List Nat → String) (packsuffix idxsuffix : String)
    (w : WriterState) (fs : FS) (excRaised : Bool) :
    Except String (WriterState × FS) :=
  if excRaised then
    .ok (w, cleanupBoth w fs)
  else if w.closed then
    .ok (w, fs)
  else
    match close hexdigest packsuffix idxsuffix w fs with
    | .error e => .error e
    | .ok (w', fs', _) => .ok (w', fs')

end mutablebasepack

/-- Observer: the path stem a `close` call returned (`None` for a discarded
empty pack, and nothing on an exception). -/
def publishedStem : Except String (WriterState × FS × Option String) → Option String
  | .ok (_, _, r) => r
  | .error _ => none

/-- Observer: the directory contents after a `close` call that returned
normally (empty on an exception). -/
def resultFiles : Except String (WriterState × FS × Option String) → List String
  | .ok (_, f, _) => f.files
  | .error _ => []

/-- C5: `indexparams` is a pure function of the prefix width `p`: for
`p ∈ {1, 2}` it produces `fanoutcount = 2 ^ (8 p)`,
`fanoutsize = fanoutcount * 4` and `indexstart = headerSize + fanoutsize`
(with `INDEXVERSIONSIZE = 2` the index header size); for every other `p`
it fails with a configuration error. -/
theorem indexparams_spec :
    indexparams 1 =
      .ok ⟨1, "!B", 2 ^ (8 * 1), 2 ^ (8 * 1) * 4, INDEXVERSIONSIZE + 2 ^ (8 * 1) * 4⟩ ∧
    indexparams 2 =
      .ok ⟨2, "!H", 2 ^ (8 * 2), 2 ^ (8 * 2) * 4, INDEXVERSIONSIZE + 2 ^ (8 * 2) * 4⟩ ∧
    ∀ p : Nat, (indexparams p).isOk = (p == 1 || p == 2) := by
  refine ⟨rfl, rfl, fun p => ?_⟩
  unfold indexparams
  by_cases h1 : p = SMALLFANOUTPREFIX
  · subst h1; rfl
  by_cases h2 : p = LARGEFANOUTPREFIX
  · subst h2; rfl
  · simp only [SMALLFANOUTPREFIX] at h1
    simp only [LARGEFANOUTPREFIX] at h2
    simp [SMALLFANOUTPREFIX, LARGEFANOUTPREFIX, h1, h2, Except.isOk, Except.toBool]

/-- C6: the writer selects the small fanout width iff the entry count is at
most `SMALLFANOUTCUTOFF = 2 ^ 16 / 8 = 8192`: exactly 8192 entries keep the
small width 1, 8193 switch to the large width 2, and the index config byte
records the choice (`0b10000000` for large, `0` for small). -/
theorem writeindex_fanout_cutoff :
    SMALLFANOUTCUTOFF = 8192 ∧
    writeindexFanoutpfx 8192 = SMALLFANOUTPREFIX ∧
    writeindexFanoutpfx 8193 = LARGEFANOUTPREFIX ∧
    (∀ c : Nat, (writeindexFanoutpfx c = SMALLFANOUTPREFIX ↔ c ≤ 8192)) ∧
    (∀ c : Nat, writeheaderConfig (writeindexFanoutpfx c) =
      if c ≤ 8192 then 0 else 128) := by
  have hcut : SMALLFANOUTCUTOFF = 8192 := rfl
  refine ⟨rfl, rfl, rfl, fun c => ?_, fun c => ?_⟩
  · unfold writeindexFanoutpfx
    rw [hcut]
    by_cases h : c ≤ 8192
    · rw [if_neg (by omega)]
      simp [h]
    · rw [if_pos (by omega)]
      constructor
      · intro hh
        exact absurd hh (by decide)
      · intro hh
        exact absurd hh h
  · unfold writeindexFanoutpfx
    rw [hcut]
    by_cases h : c ≤ 8192
    · rw [if_neg (by omega), if_pos h]
      rfl
    · rw [if_pos (by omega), if_neg h]
      rfl

/-- C4: `basepackstore.getmissing` is the left fold of each pack's
`getmissing` over the candidate set in loaded order — the empty store
returns the input set and each pack is fed the previous pack's result
exactly once — and over packs `[P1 holding "A", P2 holding "B"]` the query
`{"A", "B", "C"}` returns `{"C"}`. -/
theorem getmissing_cascade :
    (∀ keys : List String, basepackstore.getmissing [] keys = keys) ∧
    (∀ (p : List String → List String) (ps : List (List String → List String))
       (keys : List String),
       basepackstore.getmissing (p :: ps) keys =
         basepackstore.getmissing ps (p keys)) ∧
    basepackstore.getmissing
      [packGetmissing ["A"], packGetmissing ["B"]] ["A", "B", "C"] = ["C"] :=
  ⟨fun _ => rfl, fun _ _ _ => rfl, by decide⟩

/-- C7: opening a pack validates the version byte of the data-file header
and of the index-file header against the supported constant `VERSION = 0`:
both headers carrying `VERSION` pass, and a different byte in either header
is a fatal error. -/
theorem checkversions_spec (d i : List Nat) (v iv cfg cfg' : Nat)
    (hv : v ≠ VERSION) (hiv : iv ≠ VERSION) :
    basepack.checkversions (VERSION :: d) (VERSION :: cfg :: i) = .ok () ∧
    (∃ e, basepack.checkversions (v :: d) (VERSION :: cfg :: i) = .error e) ∧
    (∃ e, basepack.checkversions (VERSION :: d) (iv :: cfg' :: i) = .error e) := by
  refine ⟨rfl, ?_, ?_⟩
  · refine ⟨"unsupported pack version " ++ toString v, ?_⟩
    simp [basepack.checkversions, hv]
  · refine ⟨"unsupported pack index version " ++ toString iv, ?_⟩
    simp [basepack.checkversions, hiv]

/-- Witness for C7 at version bytes 1 (data) and 3 (index). -/
theorem checkversions_spec_witness :
    (1 ≠ VERSION ∧ 3 ≠ VERSION) ∧
    (basepack.checkversions (VERSION :: [7]) (VERSION :: 0 :: [9]) = .ok () ∧
     (∃ e, basepack.checkversions (1 :: [7]) (VERSION :: 0 :: [9]) = .error e) ∧
     (∃ e, basepack.checkversions (VERSION :: [7]) (3 :: 128 :: [9]) = .error e)) :=
  ⟨⟨by decide, by decide⟩,
   checkversions_spec [7] [9] 1 3 0 128 (by decide) (by decide)⟩

/-- C10: if `close` already completed inside the with-block and the block
exits without an exception, `__exit__` performs no further action: the
`_closed` flag suppresses a second `close`, and writer state and directory
contents are returned unchanged. -/
theorem exit_after_close_frame (hexdigest : List Nat → String)
    (packsuffix idxsuffix : String) (w : WriterState) (fs : FS)
    (h : w.closed = true) :
    mutablebasepack.exitWriter hexdigest packsuffix idxsuffix w fs false =
      .ok (w, fs) := by
  unfold mutablebasepack.exitWriter
  simp [h]

/-- Witness for C10: a closed writer, clean exit. -/
theorem exit_after_close_frame_witness :
    (⟨"p", "i", [0], [0], [[1]], false, false, true⟩ : WriterState).closed = true ∧
    mutablebasepack.exitWriter (fun _ => "d") ".pack" ".idx"
        ⟨"p", "i", [0], [0], [[1]], false, false, true⟩ ⟨["x"]⟩ false =
      .ok (⟨"p", "i", [0], [0], [[1]], false, false, true⟩, ⟨["x"]⟩) :=
  ⟨rfl, exit_after_close_frame (fun _ => "d") ".pack" ".idx" _ _ rfl⟩

/-- Any `close` that returns normally leaves the index file handle closed
(`writeindex` ends with `self.idxfp.close()`). -/
theorem close_ok_idxfp_closed (hexdigest : List Nat → String)
    (packsuffix idxsuffix : String) (w w' : WriterState) (fs fs' : FS)
    (r : Option String)
    (h : mutablebasepack.close hexdigest packsuffix idxsuffix w fs =
      .ok (w', fs', r)) :
    w'.idxfpOpen = false := by
  simp only [mutablebasepack.close] at h
  split at h
  · split at h
    · split at h
      · exact absurd h (by simp)
      · split at h
        · exact absurd h (by simp)
        · simp only [Except.ok.injEq, Prod.mk.injEq] at h
          rw [← h.1]
    · split at h
      · exact absurd h (by simp)
      · split at h
        · exact absurd h (by simp)
        · simp only [Except.ok.injEq, Prod.mk.injEq] at h
          rw [← h.1]
  · exact absurd h (by simp)

/-- C9: `close` is terminal: once a `close` has completed on a writer, a
second `close` raises an error (its `writeindex` writes to the index
handle the first `close` closed) instead of publishing again. -/
theorem close_twice_errors (hexdigest : List Nat → String)
    (packsuffix idxsuffix : String) (w w' : WriterState) (fs fs' : FS)
    (r : Option String)
    (h : mutablebasepack.close hexdigest packsuffix idxsuffix w fs =
      .ok (w', fs', r)) :
    mutablebasepack.close hexdigest packsuffix idxsuffix w' fs' =
      .error "I/O operation on closed file" := by
  have hio := close_ok_idxfp_closed hexdigest packsuffix idxsuffix w w' fs fs' r h
  unfold mutablebasepack.close
  simp [hio]

/-- Witness for C9: a concrete one-entry writer is closed, then closed again. -/
theorem close_twice_errors_witness :
    mutablebasepack.close (fun _ => "d") ".pack" ".idx"
        ⟨"p", "i", [0], [0], [[1]], true, true, false⟩ ⟨["p", "i"]⟩ =
      .ok (⟨"p", "i", [0], [0], [[1]], false, false, true⟩,
           ⟨["d.pack", "d.idx"]⟩, some "d") ∧
    mutablebasepack.close (fun _ => "d") ".pack" ".idx"
        ⟨"p", "i", [0], [0], [[1]], false, false, true⟩ ⟨["d.pack", "d.idx"]⟩ =
      .error "I/O operation on closed file" :=
  ⟨rfl,
   close_twice_errors (fun _ => "d") ".pack" ".idx"
     ⟨"p", "i", [0], [0], [[1]], true, true, false⟩
     ⟨"p", "i", [0], [0], [[1]], false, false, true⟩
     ⟨["p", "i"]⟩ ⟨["d.pack", "d.idx"]⟩ (some "d") rfl⟩

/-- A sequence of `writeraw` calls appends the concatenated payload to the
pack file and to the hashed byte stream, and changes nothing else. -/
theorem foldl_writeraw (datas : List (List Nat)) (w : WriterState) :
    datas.foldl mutablebasepack.writeraw w =
      { w with packBytes := w.packBytes ++ datas.flatten,
               shaBytes := w.shaBytes ++ datas.flatten } := by
  induction datas generalizing w with
  | nil => simp
  | cons d ds ih =>
    simp only [List.foldl_cons, ih, mutablebasepack.writeraw, List.flatten_cons,
      List.append_assoc]

/-- A whole build in explicit form: after `__init__` and the `writeraw`
calls, the pack temp file and the hashed stream hold the 1-byte version
header followed by the payload, the handles are open, `_closed` is unset,
and the directory gained the two temp files. -/
theorem runWriter_eq (packsuffix idxsuffix stem1 stem2 : String) (fs : FS)
    (datas es : List (List Nat)) :
    mutablebasepack.runWriter packsuffix idxsuffix stem1 stem2 fs datas es =
      (⟨stem1 ++ packsuffix ++ "-tmp", stem2 ++ idxsuffix ++ "-tmp",
        VERSION :: datas.flatten, VERSION :: datas.flatten, es, true, true, false⟩,
       ⟨(fs.files.concat (stem1 ++ packsuffix ++ "-tmp")).concat
          (stem2 ++ idxsuffix ++ "-tmp")⟩) := by
  unfold mutablebasepack.runWriter mutablebasepack.init
  simp [foldl_writeraw, mutablebasepack.writeraw]

/-- `rename` on an existing source succeeds and yields the updated listing. -/
theorem rename_ok (fs : FS) (o n : String) (h : o ∈ fs.files) :
    fs.rename o n =
      .ok ⟨(fs.files.filter (fun m => decide (m ≠ o ∧ m ≠ n))).concat n⟩ := by
  simp [FS.rename, h]

/-- `unlink` on an existing file succeeds and yields the filtered listing. -/
theorem unlink_ok (fs : FS) (o : String) (h : o ∈ fs.files) :
    fs.unlink o = .ok ⟨fs.files.filter (fun m => decide (m ≠ o))⟩ := by
  simp [FS.unlink, h]

/-- Filtering away a name that is not in the list changes nothing. -/
theorem filter_ne_of_not_mem (l : List String) (a : String) (h : a ∉ l) :
    l.filter (fun m => decide (m ≠ a)) = l := by
  refine List.filter_eq_self.mpr (fun m hm => ?_)
  exact decide_eq_true (fun he => h (he ▸ hm))

/-- C3: a writer holding zero entries, on `close`, deletes both temporary
files, publishes nothing under a hash name (the directory ends exactly as
before the build), returns `None`, and the writer ends closed (discarded). -/
theorem close_empty_discards (hexdigest : List Nat → String)
    (packsuffix idxsuffix stem1 stem2 : String) (fs : FS)
    (datas : List (List Nat))
    (hne : stem2 ++ idxsuffix ++ "-tmp" ≠ stem1 ++ packsuffix ++ "-tmp")
    (hp : stem1 ++ packsuffix ++ "-tmp" ∉ fs.files)
    (hi : stem2 ++ idxsuffix ++ "-tmp" ∉ fs.files) :
    mutablebasepack.close hexdigest packsuffix idxsuffix
        (mutablebasepack.runWriter packsuffix idxsuffix stem1 stem2 fs datas []).1
        (mutablebasepack.runWriter packsuffix idxsuffix stem1 stem2 fs datas []).2 =
      .ok (⟨stem1 ++ packsuffix ++ "-tmp", stem2 ++ idxsuffix ++ "-tmp",
            VERSION :: datas.flatten, VERSION :: datas.flatten, [],
            false, false, true⟩,
           fs, none) := by
  rw [runWriter_eq]
  simp [mutablebasepack.close, FS.unlink, List.concat_eq_append, hne,
        List.filter_append, filter_ne_of_not_mem _ _ hp, filter_ne_of_not_mem _ _ hi]
  congr 1
  refine List.filter_eq_self.mpr (fun m hm => ?_)
  simp only [Bool.and_eq_true, Bool.not_eq_true', decide_eq_false_iff_not]
  exact ⟨fun he => hi (he ▸ hm), fun he => hp (he ▸ hm)⟩

/-- Witness for C3 at a concrete build with payload but no entries. -/
theorem close_empty_discards_witness :
    ("b" ++ ".idx" ++ "-tmp" ≠ "a" ++ ".pack" ++ "-tmp" ∧
     "a" ++ ".pack" ++ "-tmp" ∉ (⟨["x"]⟩ : FS).files ∧
     "b" ++ ".idx" ++ "-tmp" ∉ (⟨["x"]⟩ : FS).files) ∧
    mutablebasepack.close (fun _ => "d") ".pack" ".idx"
        (mutablebasepack.runWriter ".pack" ".idx" "a" "b" ⟨["x"]⟩ [[1, 2]] []).1
        (mutablebasepack.runWriter ".pack" ".idx" "a" "b" ⟨["x"]⟩ [[1, 2]] []).2 =
      .ok (⟨"a" ++ ".pack" ++ "-tmp", "b" ++ ".idx" ++ "-tmp",
            VERSION :: [[1, 2]].flatten, VERSION :: [[1, 2]].flatten, [],
            false, false, true⟩,
           ⟨["x"]⟩, none) :=
  ⟨⟨by decide, by decide, by decide⟩,
   close_empty_discards (fun _ => "d") ".pack" ".idx" "a" "b" ⟨["x"]⟩ [[1, 2]]
     (by decide) (by decide) (by decide)⟩

/-- A successful `unlink` only removes names. -/
theorem unlink_mem_sub (fs fs' : FS) (a name : String)
    (h : fs.unlink a = .ok fs') (hm : name ∈ fs'.files) : name ∈ fs.files := by
  unfold FS.unlink at h
  split at h
  · simp only [Except.ok.injEq] at h
    rw [← h] at hm
    exact (List.mem_filter.mp hm).1
  · exact absurd h (by simp)

/-- C8: an abnormal exit of the build scope is best-effort cleanup:
`__exit__` never raises (every cleanup failure is swallowed, so the
original exception is never replaced), the cleanup only removes files —
so no hash-named (data, index) pair from this writer can appear — and when
both temp files exist (under distinct names) both are deleted. -/
theorem exit_abnormal_cleanup (hexdigest : List Nat → String)
    (packsuffix idxsuffix : String) (w : WriterState) (fs : FS)
    (hp : w.packpath ∈ fs.files) (hi : w.idxpath ∈ fs.files)
    (hne : w.idxpath ≠ w.packpath) :
    (∀ (w2 : WriterState) (f2 : FS),
       mutablebasepack.exitWriter hexdigest packsuffix idxsuffix w2 f2 true =
         .ok (w2, mutablebasepack.cleanupBoth w2 f2)) ∧
    (∀ (w2 : WriterState) (f2 : FS) (name : String),
       name ∈ (mutablebasepack.cleanupBoth w2 f2).files → name ∈ f2.files) ∧
    w.packpath ∉ (mutablebasepack.cleanupBoth w fs).files ∧
    w.idxpath ∉ (mutablebasepack.cleanupBoth w fs).files := by
  have h1 : fs.unlink w.packpath =
      .ok ⟨fs.files.filter (fun m => decide (m ≠ w.packpath))⟩ := unlink_ok _ _ hp
  have hi1 : w.idxpath ∈ fs.files.filter (fun m => decide (m ≠ w.packpath)) := by
    simp [List.mem_filter, hi, hne]
  have h2 : (⟨fs.files.filter (fun m => decide (m ≠ w.packpath))⟩ : FS).unlink
        w.idxpath =
      .ok ⟨(fs.files.filter (fun m => decide (m ≠ w.packpath))).filter
            (fun m => decide (m ≠ w.idxpath))⟩ := unlink_ok _ _ hi1
  have hcb : mutablebasepack.cleanupBoth w fs =
      ⟨(fs.files.filter (fun m => decide (m ≠ w.packpath))).filter
        (fun m => decide (m ≠ w.idxpath))⟩ := by
    simp only [mutablebasepack.cleanupBoth, h1, h2]
  refine ⟨fun w2 f2 => rfl, fun w2 f2 name hmem => ?_, ?_, ?_⟩
  · unfold mutablebasepack.cleanupBoth at hmem
    split at hmem
    · exact hmem
    · next fs1 heq =>
      split at hmem
      · exact unlink_mem_sub _ _ _ _ heq hmem
      · next fs2 heq2 =>
        exact unlink_mem_sub _ _ _ _ heq (unlink_mem_sub _ _ _ _ heq2 hmem)
  · rw [hcb]
    simp [List.mem_filter]
  · rw [hcb]
    simp [List.mem_filter]

/-- Witness for C8: a writer whose two temp files exist in the directory. -/
theorem exit_abnormal_cleanup_witness :
    ((⟨"p", "i", [0], [0], [], true, true, false⟩ : WriterState).packpath ∈
       (⟨["p", "i", "x"]⟩ : FS).files ∧
     (⟨"p", "i", [0], [0], [], true, true, false⟩ : WriterState).idxpath ∈
       (⟨["p", "i", "x"]⟩ : FS).files ∧
     (⟨"p", "i", [0], [0], [], true, true, false⟩ : WriterState).idxpath ≠
       (⟨"p", "i", [0], [0], [], true, true, false⟩ : WriterState).packpath) ∧
    ((∀ (w2 : WriterState) (f2 : FS),
        mutablebasepack.exitWriter (fun _ => "d") ".pack" ".idx" w2 f2 true =
          .ok (w2, mutablebasepack.cleanupBoth w2 f2)) ∧
     (∀ (w2 : WriterState) (f2 : FS) (name : String),
        name ∈ (mutablebasepack.cleanupBoth w2 f2).files → name ∈ f2.files) ∧
     (⟨"p", "i", [0], [0], [], true, true, false⟩ : WriterState).packpath ∉
       (mutablebasepack.cleanupBoth ⟨"p", "i", [0], [0], [], true, true, false⟩
         ⟨["p", "i", "x"]⟩).files ∧
     (⟨"p", "i", [0], [0], [], true, true, false⟩ : WriterState).idxpath ∉
       (mutablebasepack.cleanupBoth ⟨"p", "i", [0], [0], [], true, true, false⟩
         ⟨["p", "i", "x"]⟩).files) :=
  ⟨⟨by decide, by decide, by decide⟩,
   exit_abnormal_cleanup (fun _ => "d") ".pack" ".idx"
     ⟨"p", "i", [0], [0], [], true, true, false⟩ ⟨["p", "i", "x"]⟩
     (by decide) (by decide) (by decide)⟩

/-- Appending different strings to the same stem gives different names. -/
theorem append_left_ne (s t u : String) (h : t ≠ u) : s ++ t ≠ s ++ u := by
  intro he
  apply h
  have hd : (s ++ t).data = (s ++ u).data := by rw [he]
  rw [String.data_append, String.data_append] at hd
  exact String.ext (List.append_cancel_left hd)

/-- One finished build publishes: `close` returns the digest of the whole
hashed stream (version header plus payload) and the directory afterwards
holds that stem with the pack suffix and with the index suffix. -/
theorem close_run_publishes (hexdigest : List Nat → String)
    (packsuffix idxsuffix s1 s2 : String) (fs : FS)
    (datas es : List (List Nat)) (he : es ≠ [])
    (hne : s2 ++ idxsuffix ++ "-tmp" ≠ s1 ++ packsuffix ++ "-tmp")
    (hcol : s2 ++ idxsuffix ++ "-tmp" ≠
      hexdigest (VERSION :: datas.flatten) ++ packsuffix)
    (hpn : hexdigest (VERSION :: datas.flatten) ++ packsuffix ≠
      hexdigest (VERSION :: datas.flatten) ++ idxsuffix) :
    publishedStem (mutablebasepack.close hexdigest packsuffix idxsuffix
        (mutablebasepack.runWriter packsuffix idxsuffix s1 s2 fs datas es).1
        (mutablebasepack.runWriter packsuffix idxsuffix s1 s2 fs datas es).2) =
      some (hexdigest (VERSION :: datas.flatten)) ∧
    hexdigest (VERSION :: datas.flatten) ++ packsuffix ∈
      resultFiles (mutablebasepack.close hexdigest packsuffix idxsuffix
        (mutablebasepack.runWriter packsuffix idxsuffix s1 s2 fs datas es).1
        (mutablebasepack.runWriter packsuffix idxsuffix s1 s2 fs datas es).2) ∧
    hexdigest (VERSION :: datas.flatten) ++ idxsuffix ∈
      resultFiles (mutablebasepack.close hexdigest packsuffix idxsuffix
        (mutablebasepack.runWriter packsuffix idxsuffix s1 s2 fs datas es).1
        (mutablebasepack.runWriter packsuffix idxsuffix s1 s2 fs datas es).2) := by
  rw [runWriter_eq]
  refine ⟨?_, ?_, ?_⟩ <;>
    simp [mutablebasepack.close, FS.rename, publishedStem, resultFiles,
          List.concat_eq_append, List.filter_append, List.mem_filter, he,
          hne, Ne.symm hne, hcol, Ne.symm hcol, hpn, Ne.symm hpn]

/-- C2: two writer instances fed identical byte sequences publish identical
filenames: each `close` returns `some` of the digest of the entire
data-file byte stream (the 1-byte version header followed by the payload),
the two stems are the same expression, and in each resulting directory
both the data file and the index file appear under that stem with their
respective suffixes. -/
theorem close_identical_bytes (hexdigest : List Nat → String)
    (packsuffix idxsuffix s1 s2 s3 s4 : String) (fsa fsb : FS)
    (datas es es' : List (List Nat))
    (he : es ≠ []) (he' : es' ≠ [])
    (hne : s2 ++ idxsuffix ++ "-tmp" ≠ s1 ++ packsuffix ++ "-tmp")
    (hne' : s4 ++ idxsuffix ++ "-tmp" ≠ s3 ++ packsuffix ++ "-tmp")
    (hcol : s2 ++ idxsuffix ++ "-tmp" ≠
      hexdigest (VERSION :: datas.flatten) ++ packsuffix)
    (hcol' : s4 ++ idxsuffix ++ "-tmp" ≠
      hexdigest (VERSION :: datas.flatten) ++ packsuffix)
    (hsfx : packsuffix ≠ idxsuffix) :
    publishedStem (mutablebasepack.close hexdigest packsuffix idxsuffix
        (mutablebasepack.runWriter packsuffix idxsuffix s1 s2 fsa datas es).1
        (mutablebasepack.runWriter packsuffix idxsuffix s1 s2 fsa datas es).2) =
      publishedStem (mutablebasepack.close hexdigest packsuffix idxsuffix
        (mutablebasepack.runWriter packsuffix idxsuffix s3 s4 fsb datas es').1
        (mutablebasepack.runWriter packsuffix idxsuffix s3 s4 fsb datas es').2) ∧
    publishedStem (mutablebasepack.close hexdigest packsuffix idxsuffix
        (mutablebasepack.runWriter packsuffix idxsuffix s1 s2 fsa datas es).1
        (mutablebasepack.runWriter packsuffix idxsuffix s1 s2 fsa datas es).2) =
      some (hexdigest (VERSION :: datas.flatten)) ∧
    hexdigest (VERSION :: datas.flatten) ++ packsuffix ∈
      resultFiles (mutablebasepack.close hexdigest packsuffix idxsuffix
        (mutablebasepack.runWriter packsuffix idxsuffix s1 s2 fsa datas es).1
        (mutablebasepack.runWriter packsuffix idxsuffix s1 s2 fsa datas es).2) ∧
    hexdigest (VERSION :: datas.flatten) ++ idxsuffix ∈
      resultFiles (mutablebasepack.close hexdigest packsuffix idxsuffix
        (mutablebasepack.runWriter packsuffix idxsuffix s1 s2 fsa datas es).1
        (mutablebasepack.runWriter packsuffix idxsuffix s1 s2 fsa datas es).2) ∧
    hexdigest (VERSION :: datas.flatten) ++ packsuffix ∈
      resultFiles (mutablebasepack.close hexdigest packsuffix idxsuffix
        (mutablebasepack.runWriter packsuffix idxsuffix s3 s4 fsb datas es').1
        (mutablebasepack.runWriter packsuffix idxsuffix s3 s4 fsb datas es').2) ∧
    hexdigest (VERSION :: datas.flatten) ++ idxsuffix ∈
      resultFiles (mutablebasepack.close hexdigest packsuffix idxsuffix
        (mutablebasepack.runWriter packsuffix idxsuffix s3 s4 fsb datas es').1
        (mutablebasepack.runWriter packsuffix idxsuffix s3 s4 fsb datas es').2) := by
  have hpn := append_left_ne (hexdigest (VERSION :: datas.flatten))
    packsuffix idxsuffix hsfx
  obtain ⟨ha1, ha2, ha3⟩ := close_run_publishes hexdigest packsuffix idxsuffix
    s1 s2 fsa datas es he hne hcol hpn
  obtain ⟨hb1, hb2, hb3⟩ := close_run_publishes hexdigest packsuffix idxsuffix
    s3 s4 fsb datas es' he' hne' hcol' hpn
  exact ⟨ha1.trans hb1.symm, ha1, ha2, ha3, hb2, hb3⟩

/-- Witness for C2: two concrete builds of the same payload with different
temp stems, directories and entry sets. -/
theorem close_identical_bytes_witness :
    (([[1, 2]] : List (List Nat)) ≠ [] ∧ ([[3]] : List (List Nat)) ≠ [] ∧
     "b" ++ ".histidx" ++ "-tmp" ≠ "a" ++ ".histpack" ++ "-tmp" ∧
     "q" ++ ".histidx" ++ "-tmp" ≠ "c" ++ ".histpack" ++ "-tmp" ∧
     "b" ++ ".histidx" ++ "-tmp" ≠
       (fun _ : List Nat => "d0") (VERSION :: [[7, 8]].flatten) ++ ".histpack" ∧
     "q" ++ ".histidx" ++ "-tmp" ≠
       (fun _ : List Nat => "d0") (VERSION :: [[7, 8]].flatten) ++ ".histpack" ∧
     (".histpack" : String) ≠ ".histidx") ∧
    (publishedStem (mutablebasepack.close (fun _ => "d0") ".histpack" ".histidx"
        (mutablebasepack.runWriter ".histpack" ".histidx" "a" "b" ⟨[]⟩
          [[7, 8]] [[1, 2]]).1
        (mutablebasepack.runWriter ".histpack" ".histidx" "a" "b" ⟨[]⟩
          [[7, 8]] [[1, 2]]).2) =
      publishedStem (mutablebasepack.close (fun _ => "d0") ".histpack" ".histidx"
        (mutablebasepack.runWriter ".histpack" ".histidx" "c" "q" ⟨["z"]⟩
          [[7, 8]] [[3]]).1
        (mutablebasepack.runWriter ".histpack" ".histidx" "c" "q" ⟨["z"]⟩
          [[7, 8]] [[3]]).2) ∧
     publishedStem (mutablebasepack.close (fun _ => "d0") ".histpack" ".histidx"
        (mutablebasepack.runWriter ".histpack" ".histidx" "a" "b" ⟨[]⟩
          [[7, 8]] [[1, 2]]).1
        (mutablebasepack.runWriter ".histpack" ".histidx" "a" "b" ⟨[]⟩
          [[7, 8]] [[1, 2]]).2) =
      some ((fun _ : List Nat => "d0") (VERSION :: [[7, 8]].flatten)) ∧
     (fun _ : List Nat => "d0") (VERSION :: [[7, 8]].flatten) ++ ".histpack" ∈
      resultFiles (mutablebasepack.close (fun _ => "d0") ".histpack" ".histidx"
        (mutablebasepack.runWriter ".histpack" ".histidx" "a" "b" ⟨[]⟩
          [[7, 8]] [[1, 2]]).1
        (mutablebasepack.runWriter ".histpack" ".histidx" "a" "b" ⟨[]⟩
          [[7, 8]] [[1, 2]]).2) ∧
     (fun _ : List Nat => "d0") (VERSION :: [[7, 8]].flatten) ++ ".histidx" ∈
      resultFiles (mutablebasepack.close (fun _ => "d0") ".histpack" ".histidx"
        (mutablebasepack.runWriter ".histpack" ".histidx" "a" "b" ⟨[]⟩
          [[7, 8]] [[1, 2]]).1
        (mutablebasepack.runWriter ".histpack" ".histidx" "a" "b" ⟨[]⟩
          [[7, 8]] [[1, 2]]).2) ∧
     (fun _ : List Nat => "d0") (VERSION :: [[7, 8]].flatten) ++ ".histpack" ∈
      resultFiles (mutablebasepack.close (fun _ => "d0") ".histpack" ".histidx"
        (mutablebasepack.runWriter ".histpack" ".histidx" "c" "q" ⟨["z"]⟩
          [[7, 8]] [[3]]).1
        (mutablebasepack.runWriter ".histpack" ".histidx" "c" "q" ⟨["z"]⟩
          [[7, 8]] [[3]]).2) ∧
     (fun _ : List Nat => "d0") (VERSION :: [[7, 8]].flatten) ++ ".histidx" ∈
      resultFiles (mutablebasepack.close (fun _ => "d0") ".histpack" ".histidx"
        (mutablebasepack.runWriter ".histpack" ".histidx" "c" "q" ⟨["z"]⟩
          [[7, 8]] [[3]]).1
        (mutablebasepack.runWriter ".histpack" ".histidx" "c" "q" ⟨["z"]⟩
          [[7, 8]] [[3]]).2)) :=
  ⟨⟨by decide, by decide, by decide, by decide, by decide, by decide, by decide⟩,
   close_identical_bytes (fun _ => "d0") ".histpack" ".histidx" "a" "b" "c" "q"
     ⟨[]⟩ ⟨["z"]⟩ [[7, 8]] [[1, 2]] [[3]]
     (by decide) (by decide) (by decide) (by decide) (by decide) (by decide)
     (by decide)⟩

/-- Lower bound of the big-endian fold: the accumulator scales by the full
power of the remaining digits. -/
theorem beFold_lower (l : List Nat) (acc : Nat) :
    acc * 256 ^ l.length ≤ l.foldl (fun a b => a * 256 + b) acc := by
  induction l generalizing acc with
  | nil => simp
  | cons b t ih =>
    have h1 : acc * 256 ^ (b :: t).length = acc * 256 * 256 ^ t.length := by
      rw [List.length_cons, pow_succ]
      ring
    rw [h1, List.foldl_cons]
    calc acc * 256 * 256 ^ t.length
        ≤ (acc * 256 + b) * 256 ^ t.length :=
          Nat.mul_le_mul_right _ (Nat.le_add_right _ _)
      _ ≤ t.foldl (fun a b => a * 256 + b) (acc * 256 + b) := ih _

/-- Upper bound of the big-endian fold over bytes smaller than 256. -/
theorem beFold_upper (l : List Nat) (acc : Nat) (h : ∀ x ∈ l, x < 256) :
    l.foldl (fun a b => a * 256 + b) acc < (acc + 1) * 256 ^ l.length := by
  induction l generalizing acc with
  | nil => simp
  | cons b t ih =>
    rw [List.foldl_cons]
    have hb : b < 256 := h b (List.mem_cons_self _ _)
    calc t.foldl (fun a b => a * 256 + b) (acc * 256 + b)
        < (acc * 256 + b + 1) * 256 ^ t.length :=
          ih _ (fun x hx => h x (List.mem_cons_of_mem _ hx))
      _ ≤ (acc + 1) * 256 * 256 ^ t.length :=
          Nat.mul_le_mul_right _ (by omega)
      _ = (acc + 1) * 256 ^ (b :: t).length := by
          rw [List.length_cons, pow_succ]
          ring

/-- The big-endian fold is monotone with respect to the lexicographic order
on equal-length byte lists. -/
theorem beFold_mono (u : List Nat) :
    ∀ (v : List Nat) (acc : Nat), u.length = v.length →
    (∀ x ∈ u, x < 256) → lexLe u v = true →
    u.foldl (fun a b => a * 256 + b) acc ≤ v.foldl (fun a b => a * 256 + b) acc := by
  induction u with
  | nil =>
    intro v acc hlen _ _
    cases v with
    | nil => exact le_refl _
    | cons y ys => simp at hlen
  | cons x xs ih =>
    intro v acc hlen hu hle
    cases v with
    | nil => simp at hlen
    | cons y ys =>
      simp only [lexLe, Bool.or_eq_true, Bool.and_eq_true, decide_eq_true_eq,
        beq_iff_eq] at hle
      rw [List.foldl_cons, List.foldl_cons]
      have hlen' : xs.length = ys.length := by simpa using hlen
      rcases hle with hxy | ⟨hxy, hrec⟩
      · have hup : xs.foldl (fun a b => a * 256 + b) (acc * 256 + x) <
            (acc * 256 + x + 1) * 256 ^ xs.length :=
          beFold_upper xs _ (fun z hz => hu z (List.mem_cons_of_mem _ hz))
        have hlow : (acc * 256 + y) * 256 ^ ys.length ≤
            ys.foldl (fun a b => a * 256 + b) (acc * 256 + y) := beFold_lower ys _
        have hmid : (acc * 256 + x + 1) * 256 ^ xs.length ≤
            (acc * 256 + y) * 256 ^ ys.length := by
          rw [hlen']
          exact Nat.mul_le_mul_right _ (by omega)
        omega
      · subst hxy
        exact ih ys (acc * 256 + x) hlen'
          (fun z hz => hu z (List.mem_cons_of_mem _ hz)) hrec

/-- Truncation preserves the lexicographic order. -/
theorem lexLe_take (p : Nat) : ∀ (u v : List Nat), lexLe u v = true →
    lexLe (u.take p) (v.take p) = true := by
  induction p with
  | zero => intro u v _; rfl
  | succ q ih =>
    intro u v h
    cases u with
    | nil => rfl
    | cons x xs =>
      cases v with
      | nil => simp [lexLe] at h
      | cons y ys =>
        simp only [lexLe, Bool.or_eq_true, Bool.and_eq_true, decide_eq_true_eq,
          beq_iff_eq] at h
        simp only [List.take_succ_cons, lexLe, Bool.or_eq_true, Bool.and_eq_true,
          decide_eq_true_eq, beq_iff_eq]
        rcases h with h1 | ⟨h2, h3⟩
        · exact Or.inl h1
        · exact Or.inr ⟨h2, ih xs ys h3⟩

/-- A lexicographically smaller key has a fanout bucket that is no larger,
provided both keys are at least `p` bytes long and hold real bytes. -/
theorem fanoutkey_mono (p : Nat) (a b : List Nat)
    (hle : lexLe a b = true) (hpa : p ≤ a.length) (hpb : p ≤ b.length)
    (ha : ∀ x ∈ a, x < 256) :
    fanoutkey p a ≤ fanoutkey p b := by
  unfold fanoutkey
  apply beFold_mono
  · rw [List.length_take, List.length_take]
    omega
  · exact fun x hx => ha x (List.take_subset _ _ hx)
  · exact lexLe_take p a b hle

/-- Over a sorted key list, the fanout buckets are pairwise non-decreasing. -/
theorem keys_sorted (p : Nat) (nodes : List (List Nat))
    (hs : List.Pairwise (fun a b => lexLe a b = true) nodes)
    (hlen : ∀ n ∈ nodes, p ≤ n.length)
    (hbyte : ∀ n ∈ nodes, ∀ x ∈ n, x < 256) :
    List.Pairwise (fun a b => fanoutkey p a ≤ fanoutkey p b) nodes :=
  hs.imp_of_mem (fun ha hb hr =>
    fanoutkey_mono p _ _ hr (hlen _ ha) (hlen _ hb) (hbyte _ ha))

/-- Invariant of the first `writeindex` loop: over keys with non-decreasing
fanout buckets, filling preserves that the filled buckets are monotone by
bucket index, hold non-negative locations bounded by the running location,
and sit at or below every unprocessed key's bucket; afterwards the filled
buckets are monotone and non-negative. -/
theorem fillFanout_inv (L p : Nat) :
    ∀ (nodes : List (List Nat)) (count : Nat) (t : List Int),
    List.Pairwise (fun a b => fanoutkey p a ≤ fanoutkey p b) nodes →
    (∀ b1 b2 : Nat, b1 < b2 →
       t.getD b1 EMPTYFANOUT ≠ EMPTYFANOUT →
       t.getD b2 EMPTYFANOUT ≠ EMPTYFANOUT →
       t.getD b1 EMPTYFANOUT ≤ t.getD b2 EMPTYFANOUT) →
    (∀ b : Nat, t.getD b EMPTYFANOUT ≠ EMPTYFANOUT →
       0 ≤ t.getD b EMPTYFANOUT ∧
       t.getD b EMPTYFANOUT ≤ ((count * L : Nat) : Int)) →
    (∀ b : Nat, t.getD b EMPTYFANOUT ≠ EMPTYFANOUT →
       ∀ n ∈ nodes, b ≤ fanoutkey p n) →
    (∀ b1 b2 : Nat, b1 < b2 →
       (fillFanout L p nodes count t).getD b1 EMPTYFANOUT ≠ EMPTYFANOUT →
       (fillFanout L p nodes count t).getD b2 EMPTYFANOUT ≠ EMPTYFANOUT →
       (fillFanout L p nodes count t).getD b1 EMPTYFANOUT ≤
         (fillFanout L p nodes count t).getD b2 EMPTYFANOUT) ∧
    (∀ b : Nat,
       (fillFanout L p nodes count t).getD b EMPTYFANOUT ≠ EMPTYFANOUT →
       0 ≤ (fillFanout L p nodes count t).getD b EMPTYFANOUT) := by
  intro nodes
  induction nodes with
  | nil =>
    intro count t _ hA hB _
    exact ⟨hA, fun b hf => (hB b hf).1⟩
  | cons node rest ih =>
    intro count t hkeys hA hB hC
    obtain ⟨hhead, hrest⟩ := List.pairwise_cons.mp hkeys
    have hmono : ((count * L : Nat) : Int) ≤ (((count + 1) * L : Nat) : Int) := by
      exact_mod_cast Nat.mul_le_mul_right L (Nat.le_succ count)
    simp only [fillFanout]
    by_cases hempty : t.getD (fanoutkey p node) EMPTYFANOUT = EMPTYFANOUT
    · rw [if_pos hempty]
      by_cases hrange : fanoutkey p node < t.length
      · have hget : ∀ b : Nat,
            (t.set (fanoutkey p node) ((count * L : Nat) : Int)).getD b
              EMPTYFANOUT =
            if b = fanoutkey p node then ((count * L : Nat) : Int)
            else t.getD b EMPTYFANOUT := by
          intro b
          rw [List.getD_eq_getElem?_getD, List.getElem?_set]
          by_cases hb : b = fanoutkey p node
          · rw [if_pos hb.symm, if_pos hrange, if_pos hb, Option.getD_some]
          · rw [if_neg (fun hh => hb hh.symm), if_neg hb,
              List.getD_eq_getElem?_getD]
        apply ih (count + 1) _ hrest
        · intro b1 b2 hlt hf1 hf2
          rw [hget b1] at hf1 ⊢
          rw [hget b2] at hf2 ⊢
          by_cases h1 : b1 = fanoutkey p node
          · rw [if_pos h1] at hf1 ⊢
            by_cases h2 : b2 = fanoutkey p node
            · exact absurd (h1.trans h2.symm) (Nat.ne_of_lt hlt)
            · rw [if_neg h2] at hf2 ⊢
              have hb2 := hC b2 hf2 node (List.mem_cons_self _ _)
              exact absurd hlt (by omega)
          · rw [if_neg h1] at hf1 ⊢
            by_cases h2 : b2 = fanoutkey p node
            · rw [if_pos h2] at hf2 ⊢
              exact (hB b1 hf1).2
            · rw [if_neg h2] at hf2 ⊢
              exact hA b1 b2 hlt hf1 hf2
        · intro b hf
          rw [hget b] at hf ⊢
          by_cases hb : b = fanoutkey p node
          · rw [if_pos hb] at hf ⊢
            exact ⟨Int.natCast_nonneg _, hmono⟩
          · rw [if_neg hb] at hf ⊢
            exact ⟨(hB b hf).1, le_trans (hB b hf).2 hmono⟩
        · intro b hf n hn
          rw [hget b] at hf
          by_cases hb : b = fanoutkey p node
          · rw [hb]
            exact hhead n hn
          · rw [if_neg hb] at hf
            exact hC b hf n (List.mem_cons_of_mem _ hn)
      · rw [List.set_eq_of_length_le (Nat.le_of_not_lt hrange)]
        refine ih (count + 1) t hrest hA
          (fun b hf => ⟨(hB b hf).1, le_trans (hB b hf).2 hmono⟩)
          (fun b hf n hn => hC b hf n (List.mem_cons_of_mem _ hn))
    · rw [if_neg hempty]
      refine ih (count + 1) t hrest hA
        (fun b hf => ⟨(hB b hf).1, le_trans (hB b hf).2 hmono⟩)
        (fun b hf n hn => hC b hf n (List.mem_cons_of_mem _ hn))

/-- The back-fill loop turns a table whose filled entries are pairwise
non-decreasing and at least `last` into a chain that never drops below
`last`. -/
theorem backfill_chain :
    ∀ (t : List Int) (last : Int),
    (∀ x ∈ t, x ≠ EMPTYFANOUT → last ≤ x) →
    List.Pairwise (fun x y => x ≠ EMPTYFANOUT → y ≠ EMPTYFANOUT → x ≤ y) t →
    List.Chain' (fun x y => x ≤ y) (last :: backfillFanout t last) := by
  intro t
  induction t with
  | nil =>
    intro last _ _
    simp [backfillFanout]
  | cons x xs ih =>
    intro last hlast hpw
    obtain ⟨hx, hxs⟩ := List.pairwise_cons.mp hpw
    simp only [backfillFanout]
    by_cases hxe : x = EMPTYFANOUT
    · rw [if_pos hxe, List.chain'_cons]
      exact ⟨le_refl last,
        ih last (fun z hz hzne => hlast z (List.mem_cons_of_mem _ hz) hzne) hxs⟩
    · rw [if_neg hxe, List.chain'_cons]
      exact ⟨hlast x (List.mem_cons_self _ _) hxe,
        ih x (fun z hz hzne => hx z hz hxe hzne) hxs⟩

/-- C1: every fanout table built by `writeindex` is monotonically
non-decreasing in bucket order: a bucket that received no key's offset is
back-filled with the nearest preceding non-empty bucket's value (0 when no
non-empty bucket precedes it), the `EMPTYFANOUT` sentinel is never
serialized, and for buckets `i < j` the table values satisfy
`table[i] ≤ table[j]`. The hypotheses state what `writeindex` provides:
the entry keys come out of `sorted(...)` (lexicographically pairwise
non-decreasing) and each key holds at least `fanoutprefix`-many real
bytes. -/
theorem writeindex_fanout_monotone (L p : Nat) (nodes : List (List Nat))
    (hsorted : List.Pairwise (fun a b => lexLe a b = true) nodes)
    (hlen : ∀ n ∈ nodes, p ≤ n.length)
    (hbyte : ∀ n ∈ nodes, ∀ x ∈ n, x < 256) :
    List.Pairwise (fun x y => x ≤ y) (writeindexFanouttable L p nodes) ∧
    ∀ x ∈ writeindexFanouttable L p nodes, x ≠ EMPTYFANOUT ∧ 0 ≤ x := by
  have hkeys := keys_sorted p nodes hsorted hlen hbyte
  have hrep : ∀ b : Nat,
      (List.replicate (2 ^ (p * 8)) EMPTYFANOUT).getD b EMPTYFANOUT =
        EMPTYFANOUT := by
    intro b
    rw [List.getD_eq_getElem?_getD, List.getElem?_replicate]
    split
    · rw [Option.getD_some]
    · rfl
  obtain ⟨hA, hB⟩ := fillFanout_inv L p nodes 0
    (List.replicate (2 ^ (p * 8)) EMPTYFANOUT) hkeys
    (fun b1 b2 _ hf1 _ => absurd (hrep b1) hf1)
    (fun b hf => absurd (hrep b) hf)
    (fun b hf => absurd (hrep b) hf)
  unfold writeindexFanouttable
  set T := fillFanout L p nodes 0 (List.replicate (2 ^ (p * 8)) EMPTYFANOUT)
    with hT
  have hpw : List.Pairwise
      (fun x y => x ≠ EMPTYFANOUT → y ≠ EMPTYFANOUT → x ≤ y) T := by
    rw [List.pairwise_iff_getElem]
    intro i j hi hj hij hxi hxj
    have hgi : T.getD i EMPTYFANOUT = T[i] := by
      rw [List.getD_eq_getElem?_getD, List.getElem?_eq_getElem hi,
        Option.getD_some]
    have hgj : T.getD j EMPTYFANOUT = T[j] := by
      rw [List.getD_eq_getElem?_getD, List.getElem?_eq_getElem hj,
        Option.getD_some]
    have hle := hA i j hij (by rw [hgi]; exact hxi) (by rw [hgj]; exact hxj)
    rwa [hgi, hgj] at hle
  have hmem : ∀ x ∈ T, x ≠ EMPTYFANOUT → (0 : Int) ≤ x := by
    intro x hx hxe
    obtain ⟨n, hn, hxn⟩ := List.mem_iff_getElem.mp hx
    have hg : T.getD n EMPTYFANOUT = x := by
      rw [List.getD_eq_getElem?_getD, List.getElem?_eq_getElem hn,
        Option.getD_some, hxn]
    have hnn := hB n (by rw [hg]; exact hxe)
    rwa [hg] at hnn
  have hch := backfill_chain T 0 hmem hpw
  have hall : List.Pairwise (fun x y => x ≤ y) (0 :: backfillFanout T 0) :=
    List.chain'_iff_pairwise.mp hch
  obtain ⟨h0, htail⟩ := List.pairwise_cons.mp hall
  refine ⟨htail, fun x hx => ?_⟩
  have h0x : (0 : Int) ≤ x := h0 x hx
  refine ⟨fun he => ?_, h0x⟩
  rw [he] at h0x
  norm_num [EMPTYFANOUT] at h0x

/-- Witness for C1: three sorted two-or-one-byte keys, small fanout,
entry width 40. -/
theorem writeindex_fanout_monotone_witness :
    (List.Pairwise (fun a b => lexLe a b = true) [[1, 170], [1, 187], [2]] ∧
     (∀ n ∈ ([[1, 170], [1, 187], [2]] : List (List Nat)), 1 ≤ n.length) ∧
     (∀ n ∈ ([[1, 170], [1, 187], [2]] : List (List Nat)), ∀ x ∈ n, x < 256)) ∧
    (List.Pairwise (fun x y => x ≤ y)
       (writeindexFanouttable 40 1 [[1, 170], [1, 187], [2]]) ∧
     ∀ x ∈ writeindexFanouttable 40 1 [[1, 170], [1, 187], [2]],
       x ≠ EMPTYFANOUT ∧ 0 ≤ x) :=
  ⟨⟨by decide, by decide, by decide⟩,
   writeindex_fanout_monotone 40 1 [[1, 170], [1, 187], [2]]
     (by decide) (by decide) (by decide)⟩
